import Mathlib

/-!
A verification development for the multi-language content-resolution core
(fallback chain builder, entity resolver, deep resolver, request context)
and for the migration-runner utility `bun-migrate-poc.ts`.

The resolution core itself is not present in the repository sources (only
its e2e test is), so its definitions are modelled directly from the
specification text; the migration-runner definitions are translated from
`packages/dev-server/bun-migrate-poc.ts`.
-/

namespace Vendure

/-- Modelled from the spec: a TranslationRecord is one language variant of one
field set for one entity, with a language code and localized field values
(the `name` field, which is the one the spec's scenarios exercise). -/
structure TranslationRecord where
  languageCode : String
  name : String
deriving Repr, DecidableEq

/-- Modelled from the spec: a TranslatableEntity node of the entity graph.
It has a stable identity, a collection of TranslationRecords (at most one
per language code, by invariant), and named translatable relations; since
the graph may contain cycles, relations point at target entity identities
rather than nesting entities structurally. -/
structure EntityNode where
  id : Nat
  translations : List TranslationRecord
  relations : List (String × List Nat)
deriving Repr, DecidableEq

/-- Modelled from the spec: an entity graph, the externally-loaded set of
entities over which deep resolution traverses. -/
structure EntityGraph where
  nodes : List EntityNode
deriving Repr, DecidableEq

/-- Look up an entity node by identity. -/
def EntityGraph.find (g : EntityGraph) (eid : Nat) : Option EntityNode :=
  g.nodes.find? (fun n => n.id == eid)

/-- Modelled from the spec: the error kinds of §7. -/
inductive ResolutionError where
  | noTranslationsAvailable
  | cycleDetected
  | depthExceeded
  | relationResolutionFailed (path : List String)
deriving Repr, DecidableEq

/-- Modelled from the spec: the LocalizedView output projection — the chosen
translation's fields plus, for deep resolution, LocalizedViews for each
nested translatable relation. -/
inductive LocalizedView where
  | mk (id : Nat) (name : String) (relations : List (String × List LocalizedView))
deriving Repr

/-- Identity carried by a LocalizedView. -/
def LocalizedView.id : LocalizedView → Nat
  | .mk i _ _ => i

/-- The resolved `name` field of a LocalizedView. -/
def LocalizedView.name : LocalizedView → String
  | .mk _ n _ => n

/-- The resolved nested relations of a LocalizedView. -/
def LocalizedView.relations : LocalizedView → List (String × List LocalizedView)
  | .mk _ _ r => r

/-- Modelled from the spec: a RequestContext is an immutable snapshot of the
requested language, the tenant's (optional) configured default language and
the process-wide system default language. -/
structure RequestContext where
  requested : String
  tenantDefault : Option String
  systemDefault : String
deriving Repr, DecidableEq

/-- Modelled from the spec: the process-wide system default language, a
configuration constant (English, as in the e2e test's system default). -/
def systemDefaultLanguage : String := "en"

/-- Modelled from the spec: `create(requestedLanguage, tenantId)` looks up the
tenant's configured default language from the tenant registry (an external
collaborator, modelled as a function) once at creation time and captures it
in the immutable RequestContext. -/
def create (registry : Nat → Option String) (requestedLanguage : String)
    (tenantId : Nat) : RequestContext :=
  { requested := requestedLanguage
    tenantDefault := registry tenantId
    systemDefault := systemDefaultLanguage }

/-- Modelled from the spec (§4.1): the Fallback Chain Builder. Start with
`[requested]`; if the tenant default is present and differs from requested,
append it; if the system default differs from the entries already present,
append it. -/
def buildChain (ctx : RequestContext) : List String :=
  let c1 := [ctx.requested]
  let c2 :=
    match ctx.tenantDefault with
    | some t => if t = ctx.requested then c1 else c1 ++ [t]
    | none => c1
  if ctx.systemDefault ∈ c2 then c2 else c2 ++ [ctx.systemDefault]

/-- The tenant-default segment of the fallback chain: the tenant default
language, when present and different from the requested language. -/
def tenantPart (ctx : RequestContext) : List String :=
  match ctx.tenantDefault with
  | some t => if t = ctx.requested then [] else [t]
  | none => []

/-- The system-default segment of the fallback chain: the system default
language, when different from the entries already present. -/
def systemPart (ctx : RequestContext) : List String :=
  if ctx.systemDefault ∈ [ctx.requested] ++ tenantPart ctx then []
  else [ctx.systemDefault]

/-- The entity's TranslationRecord with the given language code, if any. -/
def findTranslation (translations : List TranslationRecord) (code : String) :
    Option TranslationRecord :=
  translations.find? (fun r => r.languageCode == code)

/-- Modelled from the spec (§4.2): iterate the chain in order and pick the
first language code that has a matching TranslationRecord. -/
def firstChainMatch (translations : List TranslationRecord) :
    List String → Option TranslationRecord
  | [] => none
  | c :: rest =>
    match findTranslation translations c with
    | some r => some r
    | none => firstChainMatch translations rest

/-- Modelled from the spec (§4.2, §9): the deterministic arbitrary-available
policy — the TranslationRecord with the lexicographically smallest language
code. -/
def lowestCodeTranslation : List TranslationRecord → Option TranslationRecord
  | [] => none
  | r :: rest =>
    match lowestCodeTranslation rest with
    | none => some r
    | some m => if r.languageCode ≤ m.languageCode then some r else some m

/-- Modelled from the spec (§4.2): the total selection chain — first chain
match, then any available record chosen deterministically. -/
def chooseTranslation (translations : List TranslationRecord)
    (chain : List String) : Option TranslationRecord :=
  match firstChainMatch translations chain with
  | some r => some r
  | none => lowestCodeTranslation translations

/-- Modelled from the spec (§4.2): the Entity Resolver. Selects one
TranslationRecord via the total chain and merges its fields into the view;
fails with NoTranslationsAvailable only when the entity has zero records. -/
def resolve (e : EntityNode) (chain : List String) :
    Except ResolutionError LocalizedView :=
  match chooseTranslation e.translations chain with
  | some r => .ok (.mk e.id r.name [])
  | none => .error .noTranslationsAvailable

/-- Modelled from the spec (§4.3): the cycle policy of the configuration
option `{onCycle: fail|skip, maxDepth: N}`. -/
inductive OnCycle where
  | fail
  | skip
deriving Repr, DecidableEq

/-- Modelled from the spec (§4.3): the Deep Resolver configuration — the
cycle policy and whether the caller explicitly opts into truncation at
`maxDepth` instead of a DepthExceeded failure. -/
structure DeepConfig where
  onCycle : OnCycle
  truncateAtDepth : Bool
deriving Repr, DecidableEq

/-- Modelled from the spec (§4.3): the default configuration — `onCycle:
fail`, no truncation at depth. -/
def defaultConfig : DeepConfig := ⟨OnCycle.fail, false⟩

/-- Modelled from the spec (§4.3): `onCycle: skip`, no truncation. -/
def skipConfig : DeepConfig := ⟨OnCycle.skip, false⟩

/-- Resolve a list of relation targets with the given per-target resolver,
propagating failures and omitting targets the resolver skipped. -/
def resolveTargets (f : Nat → Except ResolutionError (Option LocalizedView)) :
    List Nat → Except ResolutionError (List LocalizedView)
  | [] => .ok []
  | i :: ids =>
    match f i with
    | .error e => .error e
    | .ok v? =>
      match resolveTargets f ids with
      | .error e => .error e
      | .ok vs =>
        .ok (match v? with
             | some v => v :: vs
             | none => vs)

/-- Resolve every declared translatable relation of a node with the given
per-target resolver, keeping relation names and order. -/
def resolveRelList (f : Nat → Except ResolutionError (Option LocalizedView)) :
    List (String × List Nat) →
    Except ResolutionError (List (String × List LocalizedView))
  | [] => .ok []
  | (rname, ids) :: rest =>
    match resolveTargets f ids with
    | .error e => .error e
    | .ok vs =>
      match resolveRelList f rest with
      | .error e => .error e
      | .ok rs => .ok ((rname, vs) :: rs)

/-- Modelled from the spec (§4.3, §9): the Deep Resolver worker. Resolves an
entity by identity with a depth budget and the visited-identity set of the
current path (passed by value down the recursion). Revisiting an identity on
the current path is a cycle: it fails or is skipped per configuration.
Exhausting the depth budget fails with DepthExceeded unless the caller opted
into truncation. A target identity absent from the graph is treated as
"relation not present" (§6). Every recursive call uses the same chain.
`.ok none` means the node was omitted (skipped cycle edge, truncated depth,
or absent target). -/
def resolveNode (g : EntityGraph) (cfg : DeepConfig) (chain : List String) :
    Nat → List Nat → Nat → Except ResolutionError (Option LocalizedView)
  | 0, _, _ =>
    if cfg.truncateAtDepth then .ok none else .error .depthExceeded
  | fuel + 1, visited, eid =>
    if eid ∈ visited then
      match cfg.onCycle with
      | OnCycle.skip => .ok none
      | OnCycle.fail => .error .cycleDetected
    else
      match g.find eid with
      | none => .ok none
      | some node =>
        match resolve node chain with
        | .error e => .error e
        | .ok shallow =>
          match resolveRelList
              (fun i => resolveNode g cfg chain fuel (eid :: visited) i)
              node.relations with
          | .error e => .error e
          | .ok rels => .ok (some (.mk shallow.id shallow.name rels))

/-- Modelled from the spec (§4.3): `resolveDeep(entity, chain, maxDepth)` —
deep resolution from a root entity with an empty visited set. -/
def resolveDeep (g : EntityGraph) (cfg : DeepConfig) (chain : List String)
    (maxDepth : Nat) (rootId : Nat) :
    Except ResolutionError (Option LocalizedView) :=
  resolveNode g cfg chain maxDepth [] rootId

/-- Checks that the produced relation view lists carry exactly the node's
declared relation names in order, that each relation's views are the views
of exactly the declared target identities present in the graph (in declared
order), and that every nested view satisfies the given per-view check. -/
def relViewsOk (g : EntityGraph) (f : LocalizedView → Bool) :
    List (String × List Nat) → List (String × List LocalizedView) → Bool
  | [], [] => true
  | (n, ids) :: rs, (m, vs) :: vrs =>
    n == m
      && vs.map LocalizedView.id == ids.filter (fun i => (g.find i).isSome)
      && vs.all f
      && relViewsOk g f rs vrs
  | _, _ => false

/-- A LocalizedView is a faithful deep resolution of the graph under the
chain: its entity exists in the graph, its fields are exactly what the
Entity Resolver `resolve` yields for that entity with the same chain, its
relations carry the node's declared relation names in order with a view for
exactly each declared target present in the graph, and every nested view
recursively satisfies the same property (within the depth budget). -/
def viewOk (g : EntityGraph) (chain : List String) :
    Nat → LocalizedView → Bool
  | 0, _ => false
  | fuel + 1, LocalizedView.mk vid vname vrels =>
    match g.find vid with
    | none => false
    | some node =>
      (match resolve node chain with
       | .ok s => s.id == vid && s.name == vname
       | .error _ => false)
      && relViewsOk g (fun v => viewOk g chain fuel v) node.relations vrels

/-- The spec's concrete scenario entity: "brand" with an English and a German
translation and no French one. -/
def brand : EntityNode :=
  ⟨1, [⟨"en", "Brand"⟩, ⟨"de", "Marke"⟩], []⟩

/-- An entity graph whose entities 1 and 2 form a relation cycle (1 → 2 → 1)
while entity 0 is unrelated to the cycle. -/
def cyclicGraph : EntityGraph :=
  ⟨[⟨0, [⟨"en", "Root"⟩], []⟩,
    ⟨1, [⟨"en", "A"⟩], [("next", [2])]⟩,
    ⟨2, [⟨"en", "B"⟩], [("next", [1])]⟩]⟩

/-- A cycle-free entity graph: a root with one relation owning two items. -/
def acyclicGraph : EntityGraph :=
  ⟨[⟨0, [⟨"en", "Root"⟩], [("items", [1, 2])]⟩,
    ⟨1, [⟨"en", "A"⟩], []⟩,
    ⟨2, [⟨"en", "B"⟩], []⟩]⟩

end Vendure

namespace DevServer

/-- The environment variables read by `bun-migrate-poc.ts`. `none` models an
unset variable. -/
structure Env where
  db : Option String
  dbHost : Option String
  dbPort : Option String
  dbUsername : Option String
  dbPassword : Option String
  dbName : Option String
  dbSchema : Option String
deriving Repr, DecidableEq

/-- JavaScript `value || dflt` for an optional environment string: an unset
variable (undefined) and the empty string are falsy. -/
def orDefault (v : Option String) (dflt : String) : String :=
  match v with
  | none => dflt
  | some s => if s = "" then dflt else s

/-- JavaScript `Number(value) || dflt` for an optional environment string:
unset gives NaN, non-numeric strings give NaN, and 0 is falsy, all yielding
the default. (Non-natural numerals are approximated as non-numeric; the
claims do not depend on them.) -/
def jsNumberOrDefault (v : Option String) (dflt : Nat) : Nat :=
  match v with
  | none => dflt
  | some s =>
    match s.toNat? with
    | none => dflt
    | some 0 => dflt
    | some n => n

/-- The TypeORM connection type chosen by `getDbConfig`. -/
inductive DbType where
  | postgres
  | mariadb
deriving Repr, DecidableEq

/-- The connection configuration returned by `getDbConfig`. -/
structure DbConfig where
  type : DbType
  host : String
  port : Nat
  username : String
  password : String
  database : String
  schema : Option String
deriving Repr, DecidableEq

/-- Translation of `getDbConfig` from `bun-migrate-poc.ts`: switch on
`process.env.DB || 'mysql'`; the `postgres` case builds a postgres
configuration, and `mysql`, `mariadb` and the default case all build a
mariadb configuration. -/
def getDbConfig (env : Env) : DbConfig :=
  let dbType := orDefault env.db "mysql"
  if dbType = "postgres" then
    { type := DbType.postgres
      host := orDefault env.dbHost "localhost"
      port := jsNumberOrDefault env.dbPort 5432
      username := orDefault env.dbUsername "vendure"
      password := orDefault env.dbPassword "password"
      database := orDefault env.dbName "vendure-dev"
      schema := some (orDefault env.dbSchema "public") }
  else
    { type := DbType.mariadb
      host := orDefault env.dbHost "127.0.0.1"
      port := jsNumberOrDefault env.dbPort 3306
      username := orDefault env.dbUsername "vendure"
      password := orDefault env.dbPassword "password"
      database := orDefault env.dbName "vendure-dev"
      schema := none }

/-- The options object passed to `runMigrations` by `main` (the fields the
model tracks: the flags, migrations glob and connection configuration). -/
structure RunMigrationsOptions where
  synchronize : Bool
  logging : Bool
  migrations : List String
  dbConfig : DbConfig
deriving Repr, DecidableEq

/-- The migrations glob used by `main`: `process.env.MIGRATIONS_PATH ||
path.join(process.cwd(), 'migrations/*.js')` (path.join modelled as
separator concatenation). -/
def migrationsPathOf (cwd : String) (migrationsPathEnv : Option String) :
    String :=
  orDefault migrationsPathEnv (cwd ++ "/migrations/*.js")

/-- The options `main` builds for `runMigrations`. -/
def mainOptions (cwd : String) (env : Env)
    (migrationsPathEnv : Option String) : RunMigrationsOptions :=
  { synchronize := false
    logging := false
    migrations := [migrationsPathOf cwd migrationsPathEnv]
    dbConfig := getDbConfig env }

/-- Translation of `main` (plus its top-level `.catch`) from
`bun-migrate-poc.ts`. `runMigrations` is the awaited external call, modelled
as a function returning either the list of executed migration names or a
rejection. Returns the process exit code and the console output: when
`runMigrations` resolves, `main` logs the result summary and exits with
code 0; when it rejects, the `.catch` handler logs the failure and exits
with code 1. -/
def main (cwd : String) (env : Env) (migrationsPathEnv : Option String)
    (runMigrations : RunMigrationsOptions → Except String (List String)) :
    Nat × List String :=
  let mpath := migrationsPathOf cwd migrationsPathEnv
  let logs := ["Vendure Migration Runner (Bun compiled binary POC)",
               "---------------------------------------------------",
               "[DEBUG] About to call runMigrations...",
               "[DEBUG] migrations path: " ++ mpath]
  match runMigrations (mainOptions cwd env migrationsPathEnv) with
  | .ok result =>
    if result.length = 0 then
      (0, logs ++ ["No pending migrations."])
    else
      (0, logs ++ ["Ran " ++ toString result.length ++ " migration(s): "
                   ++ String.intercalate ", " result])
  | .error err =>
    (1, logs ++ ["Migration failed: " ++ err])

end DevServer

namespace Vendure

lemma findTranslation_nil (c : String) : findTranslation [] c = none := rfl

lemma findTranslation_eq_some_of_mem (l : List TranslationRecord)
    (r : TranslationRecord) (L : String)
    (hnd : (l.map (fun t => t.languageCode)).Nodup)
    (hmem : r ∈ l) (hL : r.languageCode = L) :
    findTranslation l L = some r := by
  induction l with
  | nil => cases hmem
  | cons a tl ih =>
    simp only [List.map_cons, List.nodup_cons] at hnd
    rcases List.mem_cons.mp hmem with h | h
    · subst h
      unfold findTranslation
      rw [List.find?_cons_of_pos]
      exact beq_iff_eq.mpr hL
    · have ha : a.languageCode ≠ L := by
        intro he
        apply hnd.1
        rw [he, ← hL]
        exact List.mem_map_of_mem (fun t => t.languageCode) h
      unfold findTranslation
      rw [List.find?_cons_of_neg]
      · exact ih hnd.2 h
      · simpa using ha

lemma firstChainMatch_eq_none (tr : List TranslationRecord)
    (chain : List String) (h : ∀ c ∈ chain, findTranslation tr c = none) :
    firstChainMatch tr chain = none := by
  induction chain with
  | nil => rfl
  | cons c rest ih =>
    have hc := h c (List.mem_cons_self c rest)
    simp only [firstChainMatch, hc]
    exact ih (fun d hd => h d (List.mem_cons_of_mem c hd))

lemma firstChainMatch_nil (chain : List String) :
    firstChainMatch [] chain = none :=
  firstChainMatch_eq_none [] chain (fun _ _ => rfl)

lemma lowestCodeTranslation_eq_none_iff (l : List TranslationRecord) :
    lowestCodeTranslation l = none ↔ l = [] := by
  cases l with
  | nil => simp [lowestCodeTranslation]
  | cons a tl =>
    simp only [lowestCodeTranslation]
    cases lowestCodeTranslation tl with
    | none => simp
    | some m =>
      by_cases h : a.languageCode ≤ m.languageCode <;> simp [h]

lemma lowestCodeTranslation_spec (l : List TranslationRecord) (hne : l ≠ []) :
    ∃ r, lowestCodeTranslation l = some r ∧ r ∈ l ∧
      ∀ r' ∈ l, r.languageCode ≤ r'.languageCode := by
  induction l with
  | nil => exact absurd rfl hne
  | cons a tl ih =>
    by_cases htl : tl = []
    · subst htl
      refine ⟨a, rfl, List.mem_cons_self a [], ?_⟩
      intro r' hr'
      rcases List.mem_cons.mp hr' with h | h
      · subst h; exact le_refl _
      · cases h
    · obtain ⟨m, hm, hmem, hmin⟩ := ih htl
      by_cases hle : a.languageCode ≤ m.languageCode
      · refine ⟨a, ?_, List.mem_cons_self a tl, ?_⟩
        · simp [lowestCodeTranslation, hm, hle]
        · intro r' hr'
          rcases List.mem_cons.mp hr' with h | h
          · subst h; exact le_refl _
          · exact le_trans hle (hmin r' h)
      · refine ⟨m, ?_, List.mem_cons_of_mem a hmem, ?_⟩
        · simp [lowestCodeTranslation, hm, hle]
        · intro r' hr'
          rcases List.mem_cons.mp hr' with h | h
          · subst h; exact le_of_not_le hle
          · exact hmin r' h

lemma resolve_ok_of_chainMatch (e : EntityNode) (chain : List String)
    (r : TranslationRecord) (h : firstChainMatch e.translations chain = some r) :
    resolve e chain = .ok (.mk e.id r.name []) := by
  simp [resolve, chooseTranslation, h]

/-- C2: exact-match precedence — for every entity with a TranslationRecord in
language L (languages unique per entity, as the data-model invariant
requires) and every chain whose first element is L, `resolve` returns
exactly that record's fields. -/
theorem exact_match_precedence (e : EntityNode) (L : String)
    (r : TranslationRecord) (rest : List String)
    (hnd : (e.translations.map (fun t => t.languageCode)).Nodup)
    (hmem : r ∈ e.translations) (hL : r.languageCode = L) :
    resolve e (L :: rest) = .ok (.mk e.id r.name []) := by
  apply resolve_ok_of_chainMatch
  have hf := findTranslation_eq_some_of_mem e.translations r L hnd hmem hL
  simp [firstChainMatch, hf]

/-- Witness for C2 at the spec's concrete scenario: requesting German for the
"brand" entity yields the German name `Marke`. -/
theorem exact_match_precedence_witness :
    resolve brand ["de", "en"] = .ok (.mk 1 "Marke" []) :=
  exact_match_precedence brand "de" ⟨"de", "Marke"⟩ ["en"]
    (by decide) (by decide) rfl

/-- C1: tenant-before-system precedence — for every entity lacking the
requested language L but holding a record in the tenant default language T,
resolution over the chain built from requested=L, tenantDefault=T returns
T's fields, whatever the system default S is (and so even when a record in
S exists on the entity). -/
theorem tenant_default_precedence (e : EntityNode) (L T S : String)
    (r : TranslationRecord)
    (hL : findTranslation e.translations L = none)
    (hT : findTranslation e.translations T = some r) :
    resolve e (buildChain ⟨L, some T, S⟩) = .ok (.mk e.id r.name []) := by
  have hTL : ¬(T = L) := by
    intro h
    rw [h, hL] at hT
    cases hT
  apply resolve_ok_of_chainMatch
  simp only [buildChain, hTL, if_false]
  by_cases hS : S = L ∨ S = T <;>
    simp [List.mem_append, List.mem_singleton, hS, firstChainMatch, hL, hT]

/-- Witness for C1 at the spec's concrete scenario: "brand" has EN=`Brand`,
DE=`Marke` and no FR record; requested=FR, tenantDefault=DE, systemDefault=EN
resolves to the DE name `Marke` even though an EN record exists. -/
theorem tenant_default_precedence_witness :
    resolve brand (buildChain ⟨"fr", some "de", "en"⟩) =
      .ok (.mk 1 "Marke" []) :=
  tenant_default_precedence brand "fr" "de" "en" ⟨"de", "Marke"⟩ rfl rfl

/-- C5: `resolve` fails exactly on entities with zero TranslationRecords, and
the failure is always `NoTranslationsAvailable` — no other error kind is
ever produced by the Entity Resolver, and it is returned to the caller
rather than silently defaulted. -/
theorem resolve_error_iff_no_translations (e : EntityNode)
    (chain : List String) :
    (resolve e chain = .error .noTranslationsAvailable ↔ e.translations = [])
      ∧ ∀ err, resolve e chain = .error err →
          err = ResolutionError.noTranslationsAvailable := by
  constructor
  · constructor
    · intro h
      simp only [resolve] at h
      rcases hch : chooseTranslation e.translations chain with _ | r
      · simp only [chooseTranslation] at hch
        rcases hfc : firstChainMatch e.translations chain with _ | r0
        · rw [hfc] at hch
          exact (lowestCodeTranslation_eq_none_iff e.translations).mp hch
        · rw [hfc] at hch
          cases hch
      · rw [hch] at h
        cases h
    · intro h
      simp [resolve, chooseTranslation, h, firstChainMatch_nil,
        lowestCodeTranslation]
  · intro err h
    simp only [resolve] at h
    rcases hch : chooseTranslation e.translations chain with _ | r <;>
      rw [hch] at h
    · cases h; rfl
    · cases h

/-- Witness for C5: an entity with zero TranslationRecords fails with
`NoTranslationsAvailable`. -/
theorem resolve_error_iff_no_translations_witness :
    resolve ⟨7, [], []⟩ ["en"] = .error .noTranslationsAvailable :=
  (resolve_error_iff_no_translations ⟨7, [], []⟩ ["en"]).1.mpr rfl

/-- C4: for every entity whose TranslationRecords are all in languages
outside the chain, `resolve` does not fail: it returns the available record
with the lexicographically smallest language code — a deterministic choice,
so (resolve being a pure function) repeated calls on the same entity and
chain return the same translation. -/
theorem outside_chain_deterministic (e : EntityNode) (chain : List String)
    (hne : e.translations ≠ [])
    (hout : ∀ c ∈ chain, findTranslation e.translations c = none) :
    ∃ r, r ∈ e.translations ∧ resolve e chain = .ok (.mk e.id r.name []) ∧
      ∀ r' ∈ e.translations, r.languageCode ≤ r'.languageCode := by
  obtain ⟨r, hr, hmem, hmin⟩ := lowestCodeTranslation_spec e.translations hne
  refine ⟨r, hmem, ?_, hmin⟩
  simp [resolve, chooseTranslation,
    firstChainMatch_eq_none e.translations chain hout, hr]

/-- Witness for C4: an entity with only Italian and German records, queried
with a French-only chain, resolves to the record with the smallest language
code. -/
theorem outside_chain_deterministic_witness :
    ∃ r, r ∈ (⟨3, [⟨"it", "Marca"⟩, ⟨"de", "Marke"⟩], []⟩ : EntityNode).translations ∧
      resolve ⟨3, [⟨"it", "Marca"⟩, ⟨"de", "Marke"⟩], []⟩ ["fr"] =
        .ok (.mk 3 r.name []) ∧
      ∀ r' ∈ (⟨3, [⟨"it", "Marca"⟩, ⟨"de", "Marke"⟩], []⟩ : EntityNode).translations,
        r.languageCode ≤ r'.languageCode :=
  outside_chain_deterministic ⟨3, [⟨"it", "Marca"⟩, ⟨"de", "Marke"⟩], []⟩
    ["fr"] (by decide) (by decide)

/-- C3 counterexample: the claim states the chain has length 1 exactly when
requested, tenant default and system default are all equal, but for a
context with no tenant default and systemDefault equal to requested the
chain already has length 1 although the tenant default equals nothing. -/
theorem buildChain_length_one_cex :
    (buildChain ⟨"en", none, "en"⟩).length = 1 ∧
      RequestContext.tenantDefault ⟨"en", none, "en"⟩ ≠ some "en" := by
  constructor
  · rfl
  · decide

/-- C3 (amended): buildChain is the sequence [requested], then the tenant
default appended only if present and different from requested, then the
system default appended only if different from the entries already present;
it has no duplicates, starts with the requested language, contains exactly
the context's languages, and has length 1 exactly when the system default
equals the requested language and the tenant default is absent or equal to
the requested language. (It is a pure function of the RequestContext by
construction.) -/
theorem fallback_chain_builder_amended (ctx : RequestContext) :
    buildChain ctx = [ctx.requested] ++ tenantPart ctx ++ systemPart ctx
    ∧ (buildChain ctx).Nodup
    ∧ (buildChain ctx).head? = some ctx.requested
    ∧ (∀ c, c ∈ buildChain ctx ↔
        c = ctx.requested ∨ ctx.tenantDefault = some c ∨ c = ctx.systemDefault)
    ∧ ((buildChain ctx).length = 1 ↔
        ctx.systemDefault = ctx.requested ∧
          (ctx.tenantDefault = none ∨ ctx.tenantDefault = some ctx.requested)) := by
  obtain ⟨req, tdef, sdef⟩ := ctx
  cases tdef with
  | none =>
    by_cases hs : sdef = req <;>
      simp_all [buildChain, tenantPart, systemPart] <;>
      tauto
  | some t =>
    by_cases ht : t = req
    · by_cases hs : sdef = req <;>
        simp_all [buildChain, tenantPart, systemPart] <;>
        tauto
    · by_cases hs1 : sdef = req
      · subst hs1
        simp_all [buildChain, tenantPart, systemPart] <;> tauto
      · by_cases hs2 : sdef = t
        · subst hs2
          simp_all [buildChain, tenantPart, systemPart] <;> tauto
        · simp_all [buildChain, tenantPart, systemPart] <;> tauto

/-- Witness for the amended C3 at a concrete context with three distinct
languages: the chain is [requested, tenant default, system default]. -/
theorem fallback_chain_builder_amended_witness :
    buildChain ⟨"fr", some "de", "en"⟩ =
      ["fr"] ++ tenantPart ⟨"fr", some "de", "en"⟩
        ++ systemPart ⟨"fr", some "de", "en"⟩ :=
  (fallback_chain_builder_amended ⟨"fr", some "de", "en"⟩).1

/-- C8: the tenant registry is read exactly once, at `create` time — two
registries that agree on the tenant at creation time (however much they
differ afterwards or on other tenants) yield equal RequestContexts, and
every resolution operation (buildChain, resolve, resolveDeep) computes the
same result from them. All model operations are pure functions, so no
resolution operation can modify the RequestContext or an input entity. -/
theorem requestContext_snapshot (registry registry' : Nat → Option String)
    (lang : String) (tid : Nat) (hreg : registry tid = registry' tid) :
    create registry lang tid = create registry' lang tid
    ∧ buildChain (create registry lang tid) =
        buildChain (create registry' lang tid)
    ∧ ∀ (e : EntityNode) (g : EntityGraph) (cfg : DeepConfig) (d rid : Nat),
        resolve e (buildChain (create registry lang tid)) =
          resolve e (buildChain (create registry' lang tid))
        ∧ resolveDeep g cfg (buildChain (create registry lang tid)) d rid =
            resolveDeep g cfg (buildChain (create registry' lang tid)) d rid := by
  have h : create registry lang tid = create registry' lang tid := by
    simp [create, hreg]
  rw [h]
  exact ⟨rfl, rfl, fun e g cfg d rid => ⟨rfl, rfl⟩⟩

/-- Witness for C8: a constant registry and a registry that later maps other
tenants differently agree on tenant 0, so the created contexts coincide. -/
theorem requestContext_snapshot_witness :
    create (fun _ => some "de") "fr" 0 =
      create (fun t => if t = 0 then some "de" else none) "fr" 0 :=
  (requestContext_snapshot (fun _ => some "de")
    (fun t => if t = 0 then some "de" else none) "fr" 0 rfl).1

end Vendure

namespace DevServer

/-- C9: `getDbConfig` yields the postgres connection type exactly when the DB
environment variable is the exact string `postgres`; every other value —
`mysql`, `mariadb`, unset, empty, or any other string — yields the mariadb
type. (Determinism over the seven DB_* variables holds because the model is
a function of exactly those fields.) -/
theorem getDbConfig_type_spec (env : Env) :
    (getDbConfig env).type =
      (if env.db = some "postgres" then DbType.postgres else DbType.mariadb) := by
  rcases env with ⟨db, h1, h2, h3, h4, h5, h6⟩
  cases db with
  | none => simp [getDbConfig, orDefault]
  | some s =>
    by_cases hs : s = ""
    · subst hs
      simp [getDbConfig, orDefault]
    · by_cases hp : s = "postgres" <;>
        simp [getDbConfig, orDefault, hs, hp]

/-- Witness for C9: DB set to `mysql` yields a mariadb connection type. -/
theorem getDbConfig_type_spec_witness :
    (getDbConfig ⟨some "mysql", none, none, none, none, none, none⟩).type =
      DbType.mariadb := by
  have h := getDbConfig_type_spec ⟨some "mysql", none, none, none, none, none, none⟩
  simpa using h

/-- C10: `main` exits with code 0 exactly when `runMigrations` resolves (in
particular also when zero migrations were pending, where it logs "No pending
migrations.") and with code 1 exactly when `runMigrations` rejects; the
model returns the exit code as its final result, so nothing runs after
either outcome. -/
theorem main_exit_code_spec (cwd : String) (env : Env) (mp : Option String)
    (rm : RunMigrationsOptions → Except String (List String)) :
    ((main cwd env mp rm).1 = 0 ↔ ∃ r, rm (mainOptions cwd env mp) = .ok r)
    ∧ ((main cwd env mp rm).1 = 1 ↔ ∃ e, rm (mainOptions cwd env mp) = .error e)
    ∧ (rm (mainOptions cwd env mp) = .ok [] →
        (main cwd env mp rm).1 = 0 ∧
          "No pending migrations." ∈ (main cwd env mp rm).2) := by
  rcases hrm : rm (mainOptions cwd env mp) with e | r
  · refine ⟨?_, ?_, ?_⟩
    · simp [main, hrm]
    · simp [main, hrm]
    · intro h
      simp [hrm] at h
  · have hfst : (main cwd env mp rm).1 = 0 := by
      by_cases hl : r.length = 0 <;> simp [main, hrm, hl]
    refine ⟨?_, ?_, ?_⟩
    · simp [hfst, hrm]
    · simp [hfst, hrm]
    · intro h
      have hr : r = [] := Except.ok.inj h
      subst hr
      exact ⟨hfst, by simp [main, hrm]⟩

/-- Witness for C10: with a `runMigrations` that resolves with zero pending
migrations, `main` exits 0 and logs the no-pending message. -/
theorem main_exit_code_spec_witness :
    (main "/app" ⟨none, none, none, none, none, none, none⟩ none
        (fun _ => .ok [])).1 = 0
    ∧ "No pending migrations." ∈
        (main "/app" ⟨none, none, none, none, none, none, none⟩ none
          (fun _ => .ok [])).2 :=
  (main_exit_code_spec "/app" ⟨none, none, none, none, none, none, none⟩ none
    (fun _ => .ok [])).2.2 rfl

end DevServer

namespace Vendure

lemma chooseTranslation_eq_none_iff (tr : List TranslationRecord)
    (chain : List String) :
    chooseTranslation tr chain = none ↔ tr = [] := by
  constructor
  · intro h
    simp only [chooseTranslation] at h
    rcases hfc : firstChainMatch tr chain with _ | r0 <;> rw [hfc] at h
    · exact (lowestCodeTranslation_eq_none_iff tr).mp h
    · cases h
  · intro h
    subst h
    simp [chooseTranslation, firstChainMatch_nil, lowestCodeTranslation]

lemma resolve_isOk_of_ne_nil (e : EntityNode) (chain : List String)
    (h : e.translations ≠ []) : ∃ v, resolve e chain = .ok v := by
  rcases hch : chooseTranslation e.translations chain with _ | r
  · exact absurd ((chooseTranslation_eq_none_iff e.translations chain).mp hch) h
  · exact ⟨.mk e.id r.name [], by simp [resolve, hch]⟩

lemma resolveTargets_isOk (f : Nat → Except ResolutionError (Option LocalizedView))
    (hf : ∀ i, ∃ o, f i = .ok o) (ids : List Nat) :
    ∃ vs, resolveTargets f ids = .ok vs := by
  induction ids with
  | nil => exact ⟨[], rfl⟩
  | cons i ids ih =>
    obtain ⟨o, ho⟩ := hf i
    obtain ⟨vs, hvs⟩ := ih
    cases o with
    | none => exact ⟨vs, by simp [resolveTargets, ho, hvs]⟩
    | some v => exact ⟨v :: vs, by simp [resolveTargets, ho, hvs]⟩

lemma resolveRelList_isOk (f : Nat → Except ResolutionError (Option LocalizedView))
    (hf : ∀ i, ∃ o, f i = .ok o) (rels : List (String × List Nat)) :
    ∃ vrels, resolveRelList f rels = .ok vrels := by
  induction rels with
  | nil => exact ⟨[], rfl⟩
  | cons p rest ih =>
    obtain ⟨n, ids⟩ := p
    obtain ⟨vs, hvs⟩ := resolveTargets_isOk f hf ids
    obtain ⟨rs, hrs⟩ := ih
    exact ⟨(n, vs) :: rs, by simp [resolveRelList, hvs, hrs]⟩

lemma resolveNode_skip_truncate_ok (g : EntityGraph) (chain : List String)
    (hall : ∀ n ∈ g.nodes, n.translations ≠ []) :
    ∀ (fuel : Nat) (visited : List Nat) (eid : Nat),
      ∃ o, resolveNode g ⟨OnCycle.skip, true⟩ chain fuel visited eid = .ok o := by
  intro fuel
  induction fuel with
  | zero => exact fun visited eid => ⟨none, rfl⟩
  | succ fuel ih =>
    intro visited eid
    by_cases hv : eid ∈ visited
    · exact ⟨none, by simp [resolveNode, hv]⟩
    · rcases hfind : g.find eid with _ | node
      · exact ⟨none, by simp [resolveNode, hv, hfind]⟩
      · have hmem : node ∈ g.nodes := List.mem_of_find?_eq_some hfind
        obtain ⟨sv, hsv⟩ := resolve_isOk_of_ne_nil node chain (hall node hmem)
        obtain ⟨rels, hrels⟩ :=
          resolveRelList_isOk
            (fun i => resolveNode g ⟨OnCycle.skip, true⟩ chain fuel (eid :: visited) i)
            (fun i => ih (eid :: visited) i) node.relations
        exact ⟨some (.mk sv.id sv.name rels),
          by simp [resolveNode, hv, hfind, hsv, hrels]⟩

/-- C6 counterexample: this graph contains a genuine cycle along translatable
relations (entity 1 → entity 2 → entity 1), yet deep resolution of entity 0
under the default configuration succeeds instead of failing with
CycleDetected, because the traversal never reaches the cycle. -/
theorem cycle_claim_cex :
    EntityGraph.find cyclicGraph 1 = some ⟨1, [⟨"en", "A"⟩], [("next", [2])]⟩
    ∧ EntityGraph.find cyclicGraph 2 = some ⟨2, [⟨"en", "B"⟩], [("next", [1])]⟩
    ∧ resolveDeep cyclicGraph defaultConfig ["en"] 5 0 =
        .ok (some (.mk 0 "Root" [])) :=
  ⟨rfl, rfl, rfl⟩

/-- C6 (amended): whenever the deep resolution traversal revisits an entity
already on the current path (the cycle-closing edge) with depth budget
remaining, the default configuration (onCycle: fail) fails with
CycleDetected and the onCycle: skip configuration omits that edge (the
revisit yields no view) and continues; moreover under onCycle: skip (with
depth truncation) deep resolution of any entity of a graph whose nodes all
have at least one translation succeeds. -/
theorem cycle_handling_amended (g : EntityGraph) (chain : List String)
    (fuel : Nat) (visited : List Nat) (eid : Nat) :
    (eid ∈ visited →
      resolveNode g defaultConfig chain (fuel + 1) visited eid =
          .error .cycleDetected
      ∧ resolveNode g skipConfig chain (fuel + 1) visited eid = .ok none)
    ∧ ((∀ n ∈ g.nodes, n.translations ≠ []) →
      ∃ o, resolveNode g ⟨OnCycle.skip, true⟩ chain fuel visited eid = .ok o) := by
  constructor
  · intro hv
    constructor
    · simp [resolveNode, hv, defaultConfig]
    · simp [resolveNode, hv, skipConfig]
  · intro hall
    exact resolveNode_skip_truncate_ok g chain hall fuel visited eid

/-- Witness for the amended C6 on the concrete cyclic graph: revisiting
entity 1 fails with CycleDetected under the default configuration, is
skipped under onCycle: skip, and skip-with-truncation resolution succeeds. -/
theorem cycle_handling_amended_witness :
    (resolveNode cyclicGraph defaultConfig ["en"] 5 [1] 1 =
        .error .cycleDetected
      ∧ resolveNode cyclicGraph skipConfig ["en"] 5 [1] 1 = .ok none)
    ∧ ∃ o, resolveNode cyclicGraph ⟨OnCycle.skip, true⟩ ["en"] 4 [1] 1 =
        .ok o :=
  ⟨(cycle_handling_amended cyclicGraph ["en"] 4 [1] 1).1 (by decide),
    (cycle_handling_amended cyclicGraph ["en"] 4 [1] 1).2 (by decide)⟩

end Vendure

namespace Vendure

lemma resolveNode_ok_none_find (g : EntityGraph) (chain : List String)
    (fuel : Nat) (visited : List Nat) (eid : Nat)
    (h : resolveNode g defaultConfig chain fuel visited eid = .ok none) :
    EntityGraph.find g eid = none := by
  cases fuel with
  | zero => simp [resolveNode, defaultConfig] at h
  | succ fuel =>
    by_cases hv : eid ∈ visited
    · simp [resolveNode, hv, defaultConfig] at h
    · rcases hfind : g.find eid with _ | node
      · rfl
      · exfalso
        simp only [resolveNode, hv, if_neg, hfind] at h
        rcases hres : resolve node chain with e | sv <;> rw [hres] at h
        · cases h
        · rcases hrel : resolveRelList
              (fun i => resolveNode g defaultConfig chain fuel (eid :: visited) i)
              node.relations with e | rels <;> rw [hrel] at h
          · cases h
          · cases h

lemma viewOk_isSome_find (g : EntityGraph) (chain : List String) (fuel : Nat)
    (v : LocalizedView) (h : viewOk g chain fuel v = true) :
    (EntityGraph.find g v.id).isSome = true := by
  cases fuel with
  | zero => simp [viewOk] at h
  | succ fuel =>
    obtain ⟨vid, vname, vrels⟩ := v
    simp only [viewOk] at h
    rcases hfind : g.find vid with _ | node <;> rw [hfind] at h
    · cases h
    · simp [LocalizedView.id, hfind]

lemma resolveTargets_filter (g : EntityGraph)
    (f : Nat → Except ResolutionError (Option LocalizedView))
    (q : LocalizedView → Bool)
    (hsome : ∀ i v, f i = .ok (some v) → v.id = i ∧ q v = true)
    (hnone : ∀ i, f i = .ok none → EntityGraph.find g i = none)
    (hq : ∀ v, q v = true → (EntityGraph.find g v.id).isSome = true) :
    ∀ (ids : List Nat) (vs : List LocalizedView),
      resolveTargets f ids = .ok vs →
      vs.map LocalizedView.id = ids.filter (fun i => (EntityGraph.find g i).isSome)
        ∧ ∀ v ∈ vs, q v = true := by
  intro ids
  induction ids with
  | nil =>
    intro vs h
    have hvs : vs = [] := by
      simpa [resolveTargets] using h.symm
    subst hvs
    exact ⟨rfl, by simp⟩
  | cons i ids ih =>
    intro vs h
    simp only [resolveTargets] at h
    rcases hfi : f i with e | v? <;> rw [hfi] at h
    · cases h
    · rcases hrest : resolveTargets f ids with e | vs' <;> rw [hrest] at h
      · cases h
      · obtain ⟨hmap, hall⟩ := ih vs' hrest
        cases v? with
        | none =>
          have hfind := hnone i hfi
          have hvs : vs = vs' := by
            cases h
            rfl
          subst hvs
          refine ⟨?_, hall⟩
          rw [List.filter_cons_of_neg, hmap]
          simp [hfind]
        | some v =>
          obtain ⟨hid, hqv⟩ := hsome i v hfi
          have hfind : (EntityGraph.find g i).isSome = true := by
            rw [← hid]
            exact hq v hqv
          have hvs : vs = v :: vs' := by
            cases h
            rfl
          subst hvs
          constructor
          · rw [List.filter_cons_of_pos]
            · simp [hid, hmap]
            · simp [hfind]
          · intro v' hv'
            rcases List.mem_cons.mp hv' with h' | h'
            · subst h'
              exact hqv
            · exact hall v' h'

lemma resolveRelList_filter (g : EntityGraph)
    (f : Nat → Except ResolutionError (Option LocalizedView))
    (q : LocalizedView → Bool)
    (hsome : ∀ i v, f i = .ok (some v) → v.id = i ∧ q v = true)
    (hnone : ∀ i, f i = .ok none → EntityGraph.find g i = none)
    (hq : ∀ v, q v = true → (EntityGraph.find g v.id).isSome = true) :
    ∀ (rels : List (String × List Nat))
      (vrels : List (String × List LocalizedView)),
      resolveRelList f rels = .ok vrels →
      relViewsOk g q rels vrels = true := by
  intro rels
  induction rels with
  | nil =>
    intro vrels h
    have hv : vrels = [] := by
      simpa [resolveRelList] using h.symm
    subst hv
    rfl
  | cons p rest ih =>
    obtain ⟨n, ids⟩ := p
    intro vrels h
    simp only [resolveRelList] at h
    rcases hvs : resolveTargets f ids with e | vs <;> rw [hvs] at h
    · cases h
    · rcases hrs : resolveRelList f rest with e | rs <;> rw [hrs] at h
      · cases h
      · have hv : vrels = (n, vs) :: rs := by
          cases h
          rfl
        subst hv
        obtain ⟨hmap, hall⟩ := resolveTargets_filter g f q hsome hnone hq ids vs hvs
        simp only [relViewsOk, Bool.and_eq_true]
        refine ⟨⟨⟨?_, ?_⟩, ?_⟩, ih rs hrs⟩
        · simp
        · exact beq_iff_eq.mpr hmap
        · exact List.all_eq_true.mpr hall

lemma resolveNode_sound_aux :
    ∀ (fuel : Nat) (g : EntityGraph) (chain : List String)
      (visited : List Nat) (eid : Nat) (v : LocalizedView),
      resolveNode g defaultConfig chain fuel visited eid = .ok (some v) →
      v.id = eid ∧ viewOk g chain fuel v = true := by
  intro fuel
  induction fuel with
  | zero =>
    intro g chain visited eid v h
    simp [resolveNode, defaultConfig] at h
  | succ fuel ih =>
    intro g chain visited eid v h
    by_cases hv : eid ∈ visited
    · simp [resolveNode, hv, defaultConfig] at h
    · rcases hfind : g.find eid with _ | node
      · simp [resolveNode, hv, hfind] at h
      · rcases hres : resolve node chain with e | sv
        · simp [resolveNode, hv, hfind, hres] at h
        · rcases hrel : resolveRelList
              (fun i => resolveNode g defaultConfig chain fuel (eid :: visited) i)
              node.relations with e | rels
          · simp [resolveNode, hv, hfind, hres, hrel] at h
          · have hveq : LocalizedView.mk sv.id sv.name rels = v := by
              simp [resolveNode, hv, hfind, hres, hrel] at h
              exact h
            have hnid : node.id = eid := by
              have hp := List.find?_some hfind
              exact beq_iff_eq.mp hp
            have hsv : sv.id = node.id := by
              simp only [resolve] at hres
              rcases hch : chooseTranslation node.translations chain
                  with _ | r <;> rw [hch] at hres
              · cases hres
              · cases hres
                rfl
            subst hveq
            constructor
            · rw [hsv, hnid]
              rfl
            · have hfind' : EntityGraph.find g sv.id = some node := by
                rw [hsv, hnid]
                exact hfind
              have hrv : relViewsOk g (fun w => viewOk g chain fuel w)
                  node.relations rels = true :=
                resolveRelList_filter g
                  (fun i => resolveNode g defaultConfig chain fuel (eid :: visited) i)
                  (fun w => viewOk g chain fuel w)
                  (fun i w hw => ih g chain (eid :: visited) i w hw)
                  (fun i hw => resolveNode_ok_none_find g chain fuel (eid :: visited) i hw)
                  (fun w hw => viewOk_isSome_find g chain fuel w hw)
                  node.relations rels hrel
              simp [viewOk, hfind', hres, hrv]

/-- C7: deep resolution is exactly the recursive application of the Entity
Resolver with the same fallback chain — whenever `resolveDeep` under the
default configuration returns a view (as it does for cycle-free graphs
within the depth budget whose entities are translated), that view is rooted
at the requested entity, its fields are exactly what `resolve` yields for
the root with the chain, its relation fields carry the declared relation
names in order with one nested LocalizedView merged in for exactly each
declared target present in the graph, and every nested view recursively has
the same property with the same chain. -/
theorem resolveDeep_sound (g : EntityGraph) (chain : List String)
    (maxDepth rootId : Nat) (v : LocalizedView)
    (h : resolveDeep g defaultConfig chain maxDepth rootId = .ok (some v)) :
    v.id = rootId ∧ viewOk g chain maxDepth v = true :=
  resolveNode_sound_aux maxDepth g chain [] rootId v h

/-- Witness for C7 on a concrete cycle-free graph: the root's view carries
the resolved views of both related items and satisfies the recursive
faithfulness check. -/
theorem resolveDeep_sound_witness :
    LocalizedView.id
        (.mk 0 "Root" [("items", [.mk 1 "A" [], .mk 2 "B" []])]) = 0
      ∧ viewOk acyclicGraph ["en"] 3
          (.mk 0 "Root" [("items", [.mk 1 "A" [], .mk 2 "B" []])]) = true :=
  resolveDeep_sound acyclicGraph ["en"] 3 0
    (.mk 0 "Root" [("items", [.mk 1 "A" [], .mk 2 "B" []])]) rfl

end Vendure
